import Mathlib

/-!
Shallow embedding of the TRY16 NEP-17 token contract (src/try16.py).

Storage is modelled as the contract's mutable state: the `totalSupply`
scalar entry plus a sparse association list of balance entries keyed by
20-byte account identifiers (the key `totalSupply` is a string in the
source and can never collide with a 20-byte account key, so the supply
is kept as a separate field). `storage.get(k).to_int()` of an absent key
is 0 in NeoVM, so `stGet` returns 0 when no entry is present.

External collaborators (`calling_script_hash`, `check_witness`,
`get_contract`) are modelled as an explicit environment of oracles; the
embedding additionally records which accounts `check_witness` was queried
on, which events were emitted, which receive-hook calls were issued and
which native-NEO payouts were triggered, so claims about those side
effects can be stated. An `assert` failure in the source aborts the
whole transaction (NeoVM reverts every write); the operations therefore
return `Option`, with `none` for an abort.
-/

namespace TRY16

/-- Account identifiers are opaque byte strings; a valid one has length 20. -/
abbrev Account := List Nat

/-- The `data: Any` argument of `transfer` is only passed through to the
receive hook; bytes suffice to model it. -/
abbrev TData := List Nat

/-- `TOKEN_DECIMALS = 8` from the source. -/
def TOKEN_DECIMALS : Nat := 8

/-- `TOKEN_TOTAL_SUPPLY = 100*10**TOKEN_DECIMALS` from the source. -/
def TOKEN_TOTAL_SUPPLY : Int := 100 * 10 ^ TOKEN_DECIMALS

/-- The owner script hash from the source. Its concrete 20 bytes come from
hashing a wallet address and are opaque; only its length (20) is ever
consulted by the code, so a fixed 20-byte value stands in for it. -/
def OWNER : Account := List.replicate 20 1

/-- Balance portion of the contract storage: a sparse association list
from account key to stored integer value. -/
abbrev Store := List (Account × Int)

/-- `storage.get(k).to_int()`: value of the first entry with key `k`, or 0
when absent (NeoVM returns empty bytes, whose `to_int` is 0). -/
def stGet (m : Store) (k : Account) : Int :=
  match m with
  | [] => 0
  | (k', v) :: rest => if k' = k then v else stGet rest k

/-- `storage.put(k, v)`: replace the entry with key `k`, or append one. -/
def stPut (m : Store) (k : Account) (v : Int) : Store :=
  match m with
  | [] => [(k, v)]
  | (k', v') :: rest => if k' = k then (k, v) :: rest else (k', v') :: stPut rest k v

/-- `storage.delete(k)`: remove the entry with key `k` (the store built by
`stPut` from the empty store never holds duplicate keys). -/
def stDelete (m : Store) (k : Account) : Store :=
  match m with
  | [] => []
  | (k', v') :: rest => if k' = k then rest else (k', v') :: stDelete rest k

/-- Whether the store holds an entry for key `k`. -/
def hasKey (m : Store) (k : Account) : Bool :=
  match m with
  | [] => false
  | (k', _) :: rest => if k' = k then true else hasKey rest k

/-- Whether every key of the store is distinct from `k`. -/
def NoKey (m : Store) (k : Account) : Prop := ∀ p ∈ m, p.1 ≠ k

/-- Contract storage: the `totalSupply` entry plus the balance entries. -/
structure State where
  supply : Int
  balances : Store
deriving DecidableEq, Repr

/-- Storage of a freshly deployed contract: everything absent. -/
def initState : State := ⟨0, []⟩

/-- A `Nep17TransferEvent` notification `(from, to, amount)`; `none` is the
null address used for mint and burn events. -/
inductive Evt where
  | transfer (source : Option Account) (dest : Option Account) (amount : Int)
deriving DecidableEq, Repr

/-- The ambient NeoVM runtime consumed by the contract: caller identity,
the witness oracle and the is-a-deployed-contract lookup. -/
structure Env where
  callingScriptHash : Account
  checkWitness : Account → Bool
  isContract : Account → Bool

/-- Result of a `transfer` call that did not abort: the returned Bool, the
final storage, the emitted events, the accounts `check_witness` was
queried on, and the `onNEP17Payment` hook calls issued as
(callee, from, amount, data). -/
structure TxRes where
  ret : Bool
  st : State
  events : List Evt
  queries : List Account
  hooks : List (Account × Account × Int × TData)
deriving DecidableEq, Repr

/-- Result of a `burn` call that did not abort: the final storage, the
emitted events, the `check_witness` queries and the native NEO payouts
issued as (recipient, amount). -/
structure BurnRes where
  st : State
  events : List Evt
  queries : List Account
  neo : List (Account × Int)
deriving DecidableEq, Repr

/-- `transfer(from_address, to_address, amount, data)` from src/try16.py
lines 81-108. The two leading `assert` statements abort (`none`) on bad
address length or negative amount; insufficient balance and failed
witness return `False`; the balance mutation is skipped when
`from_address == to_address or amount == 0`; the event always fires on
the success path, and the hook fires whenever `get_contract(to_address)`
is not null. -/
def transfer (env : Env) (s : State) (from_address to_address : Account)
    (amount : Int) (data : TData) : Option TxRes :=
  if from_address.length = 20 ∧ to_address.length = 20 then
    if 0 ≤ amount then
      let from_balance := stGet s.balances from_address
      if from_balance < amount then
        some ⟨false, s, [], [], []⟩
      else
        let queried : List Account :=
          if from_address = env.callingScriptHash then [] else [from_address]
        if from_address ≠ env.callingScriptHash ∧ env.checkWitness from_address = false then
          some ⟨false, s, [], queried, []⟩
        else
          let s1 : State :=
            if from_address ≠ to_address ∧ amount ≠ 0 then
              let bals1 :=
                if from_balance = amount then stDelete s.balances from_address
                else stPut s.balances from_address (from_balance - amount)
              let to_balance := stGet bals1 to_address
              ⟨s.supply, stPut bals1 to_address (to_balance + amount)⟩
            else s
          let hooks :=
            if env.isContract to_address then [(to_address, from_address, amount, data)]
            else []
          some ⟨true, s1, [Evt.transfer (some from_address) (some to_address) amount],
            queried, hooks⟩
    else none
  else none

/-- `_deploy(data, update)` from src/try16.py lines 146-157: a no-op when
`update` is true or the stored total supply is already positive;
otherwise it seeds the supply and the owner balance with
`TOKEN_TOTAL_SUPPLY` and emits the origination event. Returns the new
storage and the emitted events (the deploy path has no assert). -/
def _deploy (s : State) (update : Bool) : State × List Evt :=
  if update then (s, [])
  else if s.supply > 0 then (s, [])
  else (⟨TOKEN_TOTAL_SUPPLY, stPut s.balances OWNER TOKEN_TOTAL_SUPPLY⟩,
    [Evt.transfer none (some OWNER) TOKEN_TOTAL_SUPPLY])

/-- `burn(account, amount)` from src/try16.py lines 164-194. The two
leading asserts and the `account_balance >= amount` assert abort
(`none`); `check_witness` is always consulted after the asserts; when
unauthorized or `amount == 0` the call silently does nothing. On the
mutating path `total_supply()` and `balance_of(account)` are the storage
reads (the `len(account) == 20` assert inside `balance_of` is already
established here), `post_transfer` is called with `call_onPayment`
false, so it issues no hook call, and a native NEO payout to `account`
is triggered. -/
def burn (env : Env) (s : State) (account : Account) (amount : Int) :
    Option BurnRes :=
  if account.length = 20 then
    if 0 ≤ amount then
      if env.checkWitness account then
        if amount ≠ 0 then
          let current_total_supply := s.supply
          let account_balance := stGet s.balances account
          if account_balance ≥ amount then
            let bals :=
              if account_balance = amount then stDelete s.balances account
              else stPut s.balances account (account_balance - amount)
            some ⟨⟨current_total_supply - amount, bals⟩,
              [Evt.transfer (some account) none amount], [account],
              [(account, amount)]⟩
          else none
        else some ⟨s, [], [account], []⟩
      else some ⟨s, [], [account], []⟩
    else none
  else none

/-- One public operation on the contract, with the runtime environment it
executes under. -/
inductive Op where
  | deployOp (update : Bool)
  | transferOp (env : Env) (from_address to_address : Account) (amount : Int) (data : TData)
  | burnOp (env : Env) (account : Account) (amount : Int)

/-- The storage after one public operation: an abort (`none`) reverts the
whole transaction, so storage is unchanged. -/
def applyOp (s : State) : Op → State
  | .deployOp u => (_deploy s u).1
  | .transferOp env f t a d =>
    match transfer env s f t a d with
    | some r => r.st
    | none => s
  | .burnOp env acc a =>
    match burn env s acc a with
    | some r => r.st
    | none => s

/-- The storage after a sequence of public operations. -/
def run (s : State) (ops : List Op) : State := ops.foldl applyOp s

/-- Sum of all stored balance entries. -/
def sumBal (m : Store) : Int :=
  match m with
  | [] => 0
  | p :: rest => p.2 + sumBal rest

/-- The store holds no two entries with the same key (true of every store
a key-value database can present, and preserved by `stPut`/`stDelete`). -/
def noDupKeys : Store → Bool
  | [] => true
  | (k, _) :: rest => !(hasKey rest k) && noDupKeys rest

theorem sumBal_stPut (m : Store) (k : Account) (v : Int) :
    sumBal (stPut m k v) = sumBal m - stGet m k + v := by
  induction m with
  | nil => simp [stPut, stGet, sumBal]
  | cons p rest ih =>
    obtain ⟨k', v'⟩ := p
    by_cases h : k' = k
    · simp [stPut, stGet, sumBal, h]; ring
    · simp [stPut, stGet, sumBal, h, ih]; ring

theorem sumBal_stDelete (m : Store) (k : Account) :
    sumBal (stDelete m k) = sumBal m - stGet m k := by
  induction m with
  | nil => simp [stDelete, stGet, sumBal]
  | cons p rest ih =>
    obtain ⟨k', v'⟩ := p
    by_cases h : k' = k
    · simp [stDelete, stGet, sumBal, h]
    · simp [stDelete, stGet, sumBal, h, ih]; ring

theorem stGet_nonneg (m : Store) (k : Account) (h : ∀ p ∈ m, 0 < p.2) :
    0 ≤ stGet m k := by
  induction m with
  | nil => simp [stGet]
  | cons p rest ih =>
    obtain ⟨k', v'⟩ := p
    by_cases hk : k' = k
    · simpa [stGet, hk] using le_of_lt (h (k, v') (by simp [hk]))
    · simp only [stGet, hk, if_false]
      exact ih fun q hq => h q (List.mem_cons_of_mem _ hq)

theorem allPos_stPut (m : Store) (k : Account) (v : Int)
    (h : ∀ p ∈ m, 0 < p.2) (hv : 0 < v) : ∀ p ∈ stPut m k v, 0 < p.2 := by
  induction m with
  | nil => simpa [stPut] using hv
  | cons q rest ih =>
    obtain ⟨k', v'⟩ := q
    by_cases hk : k' = k
    · intro p hp
      rcases (by simpa [stPut, hk] using hp : p = (k, v) ∨ p ∈ rest) with h1 | h1
      · simpa [h1] using hv
      · exact h p (List.mem_cons_of_mem _ h1)
    · intro p hp
      rcases (by simpa [stPut, hk] using hp : p = (k', v') ∨ p ∈ stPut rest k v) with h1 | h1
      · exact h p (by simp [h1])
      · exact ih (fun q hq => h q (List.mem_cons_of_mem _ hq)) p h1

theorem allPos_stDelete (m : Store) (k : Account)
    (h : ∀ p ∈ m, 0 < p.2) : ∀ p ∈ stDelete m k, 0 < p.2 := by
  induction m with
  | nil => simp [stDelete]
  | cons q rest ih =>
    obtain ⟨k', v'⟩ := q
    by_cases hk : k' = k
    · intro p hp
      exact h p (List.mem_cons_of_mem _ (by simpa [stDelete, hk] using hp))
    · intro p hp
      rcases (by simpa [stDelete, hk] using hp : p = (k', v') ∨ p ∈ stDelete rest k) with h1 | h1
      · exact h p (by simp [h1])
      · exact ih (fun q hq => h q (List.mem_cons_of_mem _ hq)) p h1

theorem sumBal_nonneg (m : Store) (h : ∀ p ∈ m, 0 < p.2) : 0 ≤ sumBal m := by
  induction m with
  | nil => simp [sumBal]
  | cons p rest ih =>
    have hp : 0 < p.2 := h p (by simp)
    have := ih fun q hq => h q (List.mem_cons_of_mem _ hq)
    simp only [sumBal]
    omega

theorem eq_nil_of_sumBal_nonpos (m : Store) (h : ∀ p ∈ m, 0 < p.2)
    (hs : sumBal m ≤ 0) : m = [] := by
  cases m with
  | nil => rfl
  | cons p rest =>
    exfalso
    have hp : 0 < p.2 := h p (by simp)
    have hrest : 0 ≤ sumBal rest :=
      sumBal_nonneg rest fun q hq => h q (List.mem_cons_of_mem _ hq)
    simp only [sumBal] at hs
    omega

theorem stGet_eq_zero_of_hasKey_eq_false (m : Store) (k : Account)
    (h : hasKey m k = false) : stGet m k = 0 := by
  induction m with
  | nil => simp [stGet]
  | cons p rest ih =>
    obtain ⟨k', v'⟩ := p
    by_cases hk : k' = k
    · simp [hasKey, hk] at h
    · simp only [stGet, hk, if_false]
      exact ih (by simpa [hasKey, hk] using h)

theorem hasKey_stDelete_self (m : Store) (k : Account)
    (h : noDupKeys m = true) : hasKey (stDelete m k) k = false := by
  induction m with
  | nil => simp [stDelete, hasKey]
  | cons p rest ih =>
    obtain ⟨k', v'⟩ := p
    simp only [noDupKeys, Bool.and_eq_true, Bool.not_eq_true'] at h
    by_cases hk : k' = k
    · simpa [stDelete, hk] using hk ▸ h.1
    · simpa [stDelete, hasKey, hk] using ih h.2

theorem stGet_stPut_self (m : Store) (k : Account) (v : Int) :
    stGet (stPut m k v) k = v := by
  induction m with
  | nil => simp [stPut, stGet]
  | cons p rest ih =>
    obtain ⟨k', v'⟩ := p
    by_cases hk : k' = k
    · simp [stPut, stGet, hk]
    · simp [stPut, stGet, hk, ih]

/-- The conservation invariant of the spec, together with entry
positivity (sparse-zero plus non-negativity): every stored balance entry
is strictly positive and the entries sum to the stored total supply. -/
def Inv (s : State) : Prop :=
  (∀ p ∈ s.balances, 0 < p.2) ∧ sumBal s.balances = s.supply

theorem Inv_initState : Inv initState := by
  constructor
  · simp [initState]
  · simp [initState, sumBal]

theorem TOKEN_TOTAL_SUPPLY_pos : (0 : Int) < TOKEN_TOTAL_SUPPLY := by
  decide

theorem Inv__deploy (s : State) (u : Bool) (hs : Inv s) : Inv (_deploy s u).1 := by
  unfold _deploy
  split
  · exact hs
  · split
    · exact hs
    · rename_i hu hsup
      have hnil : s.balances = [] :=
        eq_nil_of_sumBal_nonpos s.balances hs.1 (by rw [hs.2]; omega)
      constructor
      · intro p hp
        rcases (by simpa [hnil, stPut] using hp : p = (OWNER, TOKEN_TOTAL_SUPPLY)) with h1
        simpa [h1] using TOKEN_TOTAL_SUPPLY_pos
      · simp [hnil, stPut, sumBal]

theorem Inv_transfer (env : Env) (s : State) (f t : Account) (a : Int) (d : TData)
    (r : TxRes) (hs : Inv s) (hr : transfer env s f t a d = some r) : Inv r.st := by
  simp only [transfer] at hr
  split at hr
  · split at hr
    · rename_i h20 ha
      split at hr
      · cases hr; exact hs
      · rename_i hlt
        split at hr
        · cases hr; exact hs
        · cases hr
          simp only
          split
          · rename_i hmut
            have hfb : a ≤ stGet s.balances f := not_lt.mp hlt
            have hapos : 0 < a := lt_of_le_of_ne ha (Ne.symm hmut.2)
            constructor
            · intro p hp
              split at hp
              · rename_i heq
                refine allPos_stPut _ _ _ (allPos_stDelete _ _ hs.1) ?_ p hp
                have := stGet_nonneg (stDelete s.balances f) t (allPos_stDelete _ _ hs.1)
                omega
              · rename_i hne
                refine allPos_stPut _ _ _
                  (allPos_stPut _ _ _ hs.1 (by omega)) ?_ p hp
                have := stGet_nonneg (stPut s.balances f (stGet s.balances f - a)) t
                  (allPos_stPut _ _ _ hs.1 (by omega))
                omega
            · simp only
              split
              · rename_i heq
                rw [sumBal_stPut, sumBal_stDelete, ← heq, hs.2]
                ring
              · rename_i hne
                rw [sumBal_stPut, sumBal_stPut, hs.2]
                ring
          · exact hs
    · exact absurd hr (by simp)
  · exact absurd hr (by simp)

theorem Inv_burn (env : Env) (s : State) (account : Account) (amount : Int)
    (r : BurnRes) (hs : Inv s) (hr : burn env s account amount = some r) : Inv r.st := by
  simp only [burn] at hr
  split at hr
  · split at hr
    · split at hr
      · split at hr
        · split at hr
          · rename_i h20 ha hw hnz hge
            cases hr
            simp only
            constructor
            · intro p hp
              split at hp
              · exact allPos_stDelete _ _ hs.1 p hp
              · rename_i hne
                exact allPos_stPut _ _ _ hs.1 (by omega) p hp
            · simp only
              split
              · rename_i heq
                rw [sumBal_stDelete, ← heq, hs.2]
              · rw [sumBal_stPut, hs.2]
                ring
          · exact absurd hr (by simp)
        · cases hr; exact hs
      · cases hr; exact hs
    · exact absurd hr (by simp)
  · exact absurd hr (by simp)

theorem Inv_applyOp (s : State) (o : Op) (hs : Inv s) : Inv (applyOp s o) := by
  cases o with
  | deployOp u => exact Inv__deploy s u hs
  | transferOp env f t a d =>
    simp only [applyOp]
    cases htr : transfer env s f t a d with
    | none => exact hs
    | some r => exact Inv_transfer env s f t a d r hs htr
  | burnOp env acc a =>
    simp only [applyOp]
    cases hb : burn env s acc a with
    | none => exact hs
    | some r => exact Inv_burn env s acc a r hs hb

theorem Inv_run (s : State) (ops : List Op) (hs : Inv s) : Inv (run s ops) := by
  induction ops generalizing s with
  | nil => exact hs
  | cons o rest ih => exact ih (applyOp s o) (Inv_applyOp s o hs)

theorem stGet_stDelete_self (m : Store) (k : Account)
    (h : noDupKeys m = true) : stGet (stDelete m k) k = 0 :=
  stGet_eq_zero_of_hasKey_eq_false _ _ (hasKey_stDelete_self m k h)

/-! Concrete fixtures used by the witness theorems. -/

/-- A concrete valid 20-byte account. -/
def cAddrA : Account := List.replicate 20 2

/-- A second concrete valid 20-byte account. -/
def cAddrB : Account := List.replicate 20 3

/-- A concrete caller script hash distinct from `cAddrA` and `cAddrB`. -/
def cCaller : Account := List.replicate 20 9

/-- Runtime with a third-party caller, no witnesses, no contracts. -/
def envPlain : Env := ⟨cCaller, fun _ => false, fun _ => false⟩

/-- Runtime in which `cAddrA` itself is the calling script. -/
def envSelfA : Env := ⟨cAddrA, fun _ => false, fun _ => false⟩

/-- Runtime with a third-party caller whose witness checks all succeed. -/
def envWitAll : Env := ⟨cCaller, fun _ => true, fun _ => false⟩

/-- Runtime in which `cAddrA` is the caller and every account resolves to
a deployed contract. -/
def envHook : Env := ⟨cAddrA, fun _ => false, fun _ => true⟩

/-- A concrete storage holding 10 tokens for `cAddrA`. -/
def stateW : State := ⟨10, [(cAddrA, 10)]⟩

/-- C1. Conservation of supply: after every sequence of public operations
(_deploy, transfer, burn) starting from the empty state, the sum of all
stored balance entries equals the stored total supply; aborted calls
revert and completed calls preserve the equality, so it holds after each
operation completes (every prefix of a sequence is itself a sequence). -/
theorem conservation_of_supply (ops : List Op) :
    sumBal (run initState ops).balances = (run initState ops).supply :=
  (Inv_run initState ops Inv_initState).2

/-- C2. Transfer atomicity: whenever transfer returns `false` (insufficient
balance or failed authorization), the balance entries of the from and to
accounts and the total supply are unchanged from the start of the call. -/
theorem transfer_atomicity (env : Env) (s : State) (f t : Account) (a : Int)
    (d : TData) (r : TxRes) (hr : transfer env s f t a d = some r)
    (hret : r.ret = false) :
    stGet r.st.balances f = stGet s.balances f ∧
    stGet r.st.balances t = stGet s.balances t ∧
    r.st.supply = s.supply := by
  simp only [transfer] at hr
  split at hr
  · split at hr
    · split at hr
      · cases hr
        exact ⟨rfl, rfl, rfl⟩
      · split at hr
        · cases hr
          exact ⟨rfl, rfl, rfl⟩
        · cases hr
          simp at hret
    · exact absurd hr (by simp)
  · exact absurd hr (by simp)

theorem transfer_atomicity_witness :
    transfer envPlain initState cAddrA cAddrB 1 [] =
      some ⟨false, initState, [], [], []⟩ ∧
    stGet initState.balances cAddrA = stGet initState.balances cAddrA ∧
    stGet initState.balances cAddrB = stGet initState.balances cAddrB ∧
    initState.supply = initState.supply :=
  ⟨rfl, transfer_atomicity envPlain initState cAddrA cAddrB 1 []
    ⟨false, initState, [], [], []⟩ rfl rfl⟩

/-- C3 counterexample: with a zero-length from address (or a negative
amount) transfer does not return `false`: both leading checks are
`assert` statements, so the call aborts the whole transaction. -/
theorem transfer_invalid_returns_false_cex :
    transfer envPlain initState ([] : Account) cAddrB 0 [] = none ∧
    transfer envPlain initState cAddrA cAddrB (-1) [] = none :=
  ⟨rfl, rfl⟩

/-- C3 amended: for every call to transfer in which from or to is not
exactly 20 bytes long, or in which amount is negative, the operation
aborts the enclosing transaction (assertion failure, modelled as `none`)
rather than returning `false`; the abort reverts the transaction, so no
state mutation survives. -/
theorem transfer_invalid_aborts (env : Env) (s : State) (f t : Account)
    (a : Int) (d : TData)
    (h : ¬(f.length = 20 ∧ t.length = 20) ∨ a < 0) :
    transfer env s f t a d = none := by
  simp only [transfer]
  rcases h with h | h
  · rw [if_neg h]
  · split
    · rw [if_neg (not_le.mpr h)]
    · rfl

theorem transfer_invalid_aborts_witness :
    (¬(([] : Account).length = 20 ∧ cAddrB.length = 20) ∨ (0 : Int) < 0) ∧
    transfer envPlain initState ([] : Account) cAddrB 0 [] = none :=
  ⟨Or.inl (by decide),
    transfer_invalid_aborts envPlain initState [] cAddrB 0 [] (Or.inl (by decide))⟩

/-- C4. Sparse-zero: after every sequence of public operations starting
from the empty state, no stored balance entry has value exactly zero
(every stored entry is in fact strictly positive; a transfer or burn
that empties an account deletes its entry). -/
theorem sparse_zero (ops : List Op) :
    ∀ p ∈ (run initState ops).balances, p.2 ≠ 0 :=
  fun p hp => ne_of_gt ((Inv_run initState ops Inv_initState).1 p hp)

theorem sparse_zero_witness :
    (OWNER, TOKEN_TOTAL_SUPPLY) ∈ (run initState [Op.deployOp false]).balances ∧
    (OWNER, TOKEN_TOTAL_SUPPLY).2 ≠ 0 :=
  ⟨by decide, sparse_zero [Op.deployOp false] (OWNER, TOKEN_TOTAL_SUPPLY) (by decide)⟩

/-- C5. Burn postcondition: for a 20-byte account, positive amount and an
authorizing witness, if the account balance covers the amount then burn
subtracts the amount from the total supply and from the account balance,
deletes the entry when the balance is exhausted exactly, and emits the
single event (account, none, amount); if the balance is insufficient the
whole call aborts (so no state change survives). -/
theorem burn_postcondition (env : Env) (s : State) (account : Account)
    (amount : Int) (h20 : account.length = 20) (hpos : 0 < amount)
    (hw : env.checkWitness account = true)
    (hnd : noDupKeys s.balances = true) :
    (amount ≤ stGet s.balances account →
      ∃ r, burn env s account amount = some r ∧
        r.st.supply = s.supply - amount ∧
        stGet r.st.balances account = stGet s.balances account - amount ∧
        (stGet s.balances account = amount →
          hasKey r.st.balances account = false) ∧
        r.events = [Evt.transfer (some account) none amount]) ∧
    (stGet s.balances account < amount → burn env s account amount = none) := by
  have h0 : 0 ≤ amount := le_of_lt hpos
  have hnz : amount ≠ 0 := ne_of_gt hpos
  constructor
  · intro hge
    simp only [burn]
    rw [if_pos h20, if_pos h0, if_pos hw, if_pos hnz, if_pos hge]
    refine ⟨_, rfl, rfl, ?_, ?_, rfl⟩
    · simp only
      split
      · rename_i heq
        rw [stGet_stDelete_self s.balances account hnd, heq]
        ring
      · rw [stGet_stPut_self]
    · intro heq
      simp only
      rw [if_pos heq]
      exact hasKey_stDelete_self s.balances account hnd
  · intro hlt
    simp only [burn]
    rw [if_pos h20, if_pos h0, if_pos hw, if_pos hnz, if_neg (not_le.mpr hlt)]

theorem burn_postcondition_witness :
    cAddrA.length = 20 ∧ (0 : Int) < 4 ∧
    envWitAll.checkWitness cAddrA = true ∧
    noDupKeys stateW.balances = true ∧
    ((4 ≤ stGet stateW.balances cAddrA →
      ∃ r, burn envWitAll stateW cAddrA 4 = some r ∧
        r.st.supply = stateW.supply - 4 ∧
        stGet r.st.balances cAddrA = stGet stateW.balances cAddrA - 4 ∧
        (stGet stateW.balances cAddrA = 4 →
          hasKey r.st.balances cAddrA = false) ∧
        r.events = [Evt.transfer (some cAddrA) none 4]) ∧
    (stGet stateW.balances cAddrA < 4 → burn envWitAll stateW cAddrA 4 = none)) :=
  ⟨by decide, by decide, rfl, by decide,
    burn_postcondition envWitAll stateW cAddrA 4 (by decide) (by decide) rfl (by decide)⟩

/-- C6. Idempotent activation: running `_deploy` with `update = false` a
second time on the state the first run produced changes neither the
state nor emits any event, and `_deploy` with `update = true` is always
a no-op. -/
theorem deploy_idempotent (s : State) :
    _deploy (_deploy s false).1 false = ((_deploy s false).1, ([] : List Evt)) ∧
    _deploy s true = (s, []) := by
  constructor
  · by_cases h : s.supply > 0
    · simp [_deploy, h]
    · simp [_deploy, h, TOKEN_TOTAL_SUPPLY_pos]
  · simp [_deploy]

/-- C7. Self-transfer/zero no-op: for a valid 20-byte account with a
non-negative stored balance, if the caller is the account itself or the
witness oracle affirms it, `transfer(A, A, 0, data)` returns `true`,
emits exactly one transfer event (A, A, 0) and leaves the storage
(every balance entry and the total supply) unchanged. -/
theorem self_transfer_noop (env : Env) (s : State) (A : Account) (d : TData)
    (h20 : A.length = 20) (hb : 0 ≤ stGet s.balances A)
    (hauth : A = env.callingScriptHash ∨ env.checkWitness A = true) :
    ∃ r, transfer env s A A 0 d = some r ∧ r.ret = true ∧
      r.events = [Evt.transfer (some A) (some A) 0] ∧ r.st = s := by
  have hauth' : ¬(A ≠ env.callingScriptHash ∧ env.checkWitness A = false) := by
    rcases hauth with h | h
    · exact fun hcon => hcon.1 h
    · intro hcon
      rw [h] at hcon
      exact absurd hcon.2 (by simp)
  simp only [transfer]
  rw [if_pos ⟨h20, h20⟩, if_pos le_rfl, if_neg (not_lt.mpr hb), if_neg hauth',
    if_neg (by simp : ¬(A ≠ A ∧ (0 : Int) ≠ 0))]
  exact ⟨_, rfl, rfl, rfl, rfl⟩

theorem self_transfer_noop_witness :
    cAddrA.length = 20 ∧ (0 : Int) ≤ stGet initState.balances cAddrA ∧
    (cAddrA = envSelfA.callingScriptHash ∨ envSelfA.checkWitness cAddrA = true) ∧
    (∃ r, transfer envSelfA initState cAddrA cAddrA 0 [] = some r ∧
      r.ret = true ∧ r.events = [Evt.transfer (some cAddrA) (some cAddrA) 0] ∧
      r.st = initState) :=
  ⟨by decide, by decide, Or.inl rfl,
    self_transfer_noop envSelfA initState cAddrA [] (by decide) (by decide) (Or.inl rfl)⟩

/-- C8. Unauthorized transfer: with valid 20-byte addresses, a
non-negative amount within the from balance, a caller distinct from the
from account and a witness oracle that denies the from account, transfer
returns `false` with the storage untouched, no event emitted and no hook
call issued (the witness oracle was consulted exactly on the from
account). -/
theorem unauthorized_transfer (env : Env) (s : State) (f t : Account)
    (a : Int) (d : TData) (hf : f.length = 20) (ht : t.length = 20)
    (ha : 0 ≤ a) (hbal : a ≤ stGet s.balances f)
    (hc : f ≠ env.callingScriptHash) (hw : env.checkWitness f = false) :
    transfer env s f t a d = some ⟨false, s, [], [f], []⟩ := by
  simp only [transfer]
  rw [if_pos ⟨hf, ht⟩, if_pos ha, if_neg (not_lt.mpr hbal), if_pos ⟨hc, hw⟩,
    if_neg hc]

theorem unauthorized_transfer_witness :
    cAddrA.length = 20 ∧ cAddrB.length = 20 ∧ (0 : Int) ≤ 5 ∧
    (5 : Int) ≤ stGet stateW.balances cAddrA ∧
    cAddrA ≠ envPlain.callingScriptHash ∧
    envPlain.checkWitness cAddrA = false ∧
    transfer envPlain stateW cAddrA cAddrB 5 [] =
      some ⟨false, stateW, [], [cAddrA], []⟩ :=
  ⟨by decide, by decide, by decide, by decide, by decide, rfl,
    unauthorized_transfer envPlain stateW cAddrA cAddrB 5 []
      (by decide) (by decide) (by decide) (by decide) (by decide) rfl⟩

/-- C9. The balance check precedes authorization: with valid addresses and
non-negative amount, when the from balance is strictly below the amount,
transfer returns `false` with the storage untouched and with an empty
list of witness-oracle queries — `check_witness` is never consulted,
whoever the caller is. -/
theorem balance_check_precedes_witness (env : Env) (s : State)
    (f t : Account) (a : Int) (d : TData) (hf : f.length = 20)
    (ht : t.length = 20) (ha : 0 ≤ a) (hlt : stGet s.balances f < a) :
    transfer env s f t a d = some ⟨false, s, [], [], []⟩ := by
  simp only [transfer]
  rw [if_pos ⟨hf, ht⟩, if_pos ha, if_pos hlt]

theorem balance_check_precedes_witness_witness :
    cAddrA.length = 20 ∧ cAddrB.length = 20 ∧ (0 : Int) ≤ 11 ∧
    stGet stateW.balances cAddrA < 11 ∧
    transfer envWitAll stateW cAddrA cAddrB 11 [] =
      some ⟨false, stateW, [], [], []⟩ :=
  ⟨by decide, by decide, by decide, by decide,
    balance_check_precedes_witness envWitAll stateW cAddrA cAddrB 11 []
      (by decide) (by decide) (by decide) (by decide)⟩

/-- C10. Receive-hook fires on no-op transfers: every transfer that passes
validation, the balance check and authorization — including the
skipped-mutation cases from = to and amount = 0 — issues the
`onNEP17Payment` hook call (to, from, amount, data) whenever the
destination resolves to a deployed contract. -/
theorem hook_fires_when_dest_is_contract (env : Env) (s : State)
    (f t : Account) (a : Int) (d : TData) (hf : f.length = 20)
    (ht : t.length = 20) (ha : 0 ≤ a) (hbal : a ≤ stGet s.balances f)
    (hauth : f = env.callingScriptHash ∨ env.checkWitness f = true)
    (hct : env.isContract t = true) :
    ∃ r, transfer env s f t a d = some r ∧ r.ret = true ∧
      r.hooks = [(t, f, a, d)] := by
  have hauth' : ¬(f ≠ env.callingScriptHash ∧ env.checkWitness f = false) := by
    rcases hauth with h | h
    · exact fun hcon => hcon.1 h
    · intro hcon
      rw [h] at hcon
      exact absurd hcon.2 (by simp)
  simp only [transfer]
  rw [if_pos ⟨hf, ht⟩, if_pos ha, if_neg (not_lt.mpr hbal), if_neg hauth',
    if_pos hct]
  exact ⟨_, rfl, rfl, rfl⟩

theorem hook_fires_when_dest_is_contract_witness :
    cAddrA.length = 20 ∧ (0 : Int) ≤ 0 ∧
    (0 : Int) ≤ stGet stateW.balances cAddrA ∧
    (cAddrA = envHook.callingScriptHash ∨ envHook.checkWitness cAddrA = true) ∧
    envHook.isContract cAddrA = true ∧
    (∃ r, transfer envHook stateW cAddrA cAddrA 0 [] = some r ∧
      r.ret = true ∧ r.hooks = [(cAddrA, cAddrA, 0, [])]) :=
  ⟨by decide, by decide, by decide, Or.inl rfl, rfl,
    hook_fires_when_dest_is_contract envHook stateW cAddrA cAddrA 0 []
      (by decide) (by decide) (by decide) (by decide) (Or.inl rfl) rfl⟩

end TRY16
